import Mathlib

/-!
Verification of the live capture / VAD-segmentation / transcription pipeline
of `whisper_recorder.py` (class `WhisperRecorder`), via a shallow embedding.

Conventions of the embedding:
* Raw PCM bytes are modelled as `List Nat`; a captured frame carries its
  bytes, the (external) VAD verdict for those bytes, and the wall-clock
  second at which the consumer thread processes it (`time.time()` truncated
  to seconds, the only granularity the code ever uses via `int(...)`).
* The transcription model call (`self.model.transcribe`) is an external
  component; it is a parameter `engine : List Nat → Except String (List String)`
  returning the segment texts, `.error` standing for a raised exception.
* A raised exception is propagated as `Except.error (msg, state)`, the state
  being the consumer state at the moment of the raise (on the real thread the
  sinks keep exactly that content when the thread dies).
* `PState.trace`, `PState.stamps` and `PState.emptyGuardHits` are ghost
  instrumentation recording the observable actions in program order; they are
  written to but never read by the embedded code.
-/

namespace Whisper

/-! ### Frame source callback (`_audio_callback`, lines 90–94)

`if status: print(status)` only logs; the queue is touched only under
`if self.running: self.audio_q.put(indata.copy())`. -/

/-- Embedding of `WhisperRecorder._audio_callback` restricted to its effect on
the frame queue: `_status` is the (logged, otherwise unused) device status,
`frame` the delivered frame's bytes, `q` the queue contents. -/
def audio_callback (running : Bool) (_status : Bool) (frame : List Nat)
    (q : List (List Nat)) : List (List Nat) :=
  if running then q ++ [frame] else q

/-! ### The voice-activity segmenter (`_process_audio`, lines 177–188)

The VAD branch of the consumer loop, abstracted from the buffer contents:
`silence_frames` / `speaking` evolve exactly as in the source, and the step
reports whether this frame triggered an utterance emission
(`silence_frames > 10` while speaking). -/

/-- The segmenter state: `{speaking, trailing-silence counter}` of
`_process_audio`. -/
structure SegState where
  silence_frames : Nat
  speaking : Bool
deriving Repr, DecidableEq

/-- One frame through the VAD branch of `_process_audio` (lines 177–188).
Returns the next state and whether an utterance was emitted on this frame. -/
def segStep (st : SegState) (is_speech : Bool) : SegState × Bool :=
  if is_speech then (⟨0, true⟩, false)
  else if st.speaking then
    let sf := st.silence_frames + 1
    if sf > 10 then (⟨0, false⟩, true)
    else (⟨sf, st.speaking⟩, false)
  else (st, false)

/-- Run the segmenter over a classification sequence starting at state `st`,
frame `i` being at absolute index `i`; returns the final state and the list of
absolute indices of the frames at which an utterance was emitted. -/
def segRunFromIdx (st : SegState) (i : Nat) : List Bool → SegState × List Nat
  | [] => (st, [])
  | b :: rest =>
    let p := segStep st b
    let r := segRunFromIdx p.1 (i + 1) rest
    (r.1, (if p.2 then [i] else []) ++ r.2)

/-- Initial segmenter state of `_process_audio`: `silence_frames = 0`,
`speaking = False`. -/
def segInit : SegState := ⟨0, false⟩

/-- Indices at which the segmenter emits, over a whole classification
sequence. -/
def segEmitIdxs (l : List Bool) : List Nat := (segRunFromIdx segInit 0 l).2

/-- Number of utterance emissions over a whole classification sequence. -/
def segEmits (l : List Bool) : Nat := (segEmitIdxs l).length

/-- The emission-position property at index `i`: frame `i - 11` is speech and
frames `i - 10 … i` are eleven consecutive silence frames. -/
def EmissionPos (l : List Bool) (i : Nat) : Prop :=
  11 ≤ i ∧ l[i - 11]? = some true ∧
    ∀ j, j < 11 → l[i - 10 + j]? = some false

instance (l : List Bool) (i : Nat) : Decidable (EmissionPos l i) := by
  unfold EmissionPos
  infer_instance

/-- Declarative characterisation of an emission position, as a decidable
test. -/
def emissionAt (l : List Bool) (i : Nat) : Bool :=
  decide (EmissionPos l i)

/-- The invariant relating a segmenter state to the prefix of
classifications that produced it from `segInit`: either no speech has been
seen since the last emission-closing silence window (state `⟨0, false⟩`;
covers both an all-silence prefix and a prefix whose last speech frame is
followed by at least 11 silence frames), or the prefix ends in a speech frame
followed by `k ≤ 10` silence frames and the segmenter is speaking with
trailing-silence counter `k`. -/
def SegInv (p : List Bool) (st : SegState) : Prop :=
  ((∀ x ∈ p, x = false) ∧ st = ⟨0, false⟩) ∨
  (∃ q k, p = q ++ true :: List.replicate k false ∧
    ((k ≤ 10 ∧ st = ⟨k, true⟩) ∨ (11 ≤ k ∧ st = ⟨0, false⟩)))

/-- Count of maximal speech runs under the spec's reading: speech frames merge
into one run when separated by at most 10 silence frames; every run is
counted, including a trailing run not followed by the closing silence window.
The running `Option Nat` is the number of silence frames since the last speech
frame (`none` before any speech). -/
def runCountAux : Option Nat → List Bool → Nat
  | _, [] => 0
  | g, true :: rest =>
    (match g with
     | none => 1
     | some k => if 11 ≤ k then 1 else 0) + runCountAux (some 0) rest
  | g, false :: rest => runCountAux (g.map (· + 1)) rest

/-- Number of maximal runs of speech frames, runs being separated by at least
11 consecutive silence frames. -/
def runCount (l : List Bool) : Nat := runCountAux none l

/-! ### The consumer pipeline (`_process_audio` / `_transcribe_utterance`) -/

/-- A frame as consumed from the frame queue: its raw bytes
(`indata.tobytes()`), the verdict of the external VAD
(`self.vad.is_speech(frame_bytes, self.sample_rate)`), and the wall-clock
second at which the consumer processes it. -/
structure Frame where
  bytes : List Nat
  is_speech : Bool
  time : Nat
deriving Repr, DecidableEq

/-- Ghost log of the observable actions of the consumer loop, in program
order.  Each event records the index of the frame being processed when it
happened, and (for the three actions that follow the audio-sink write) the
audio-sink byte length at that moment. -/
inductive Event where
  | writeAudio (idx : Nat) (bytes : List Nat) : Event
  | classify (idx : Nat) (is_speech : Bool) (sinkLen : Nat) : Event
  | emitUtterance (idx : Nat) (utterance : List Nat) (sinkLen : Nat) : Event
  | writeLine (idx : Nat) (line : String) (sinkLen : Nat) : Event
deriving Repr, DecidableEq

/-- The frame index an event was logged at. -/
def Event.idx : Event → Nat
  | .writeAudio i _ => i
  | .classify i _ _ => i
  | .emitUtterance i _ _ => i
  | .writeLine i _ _ => i

/-- The transcript text sink (`self.text_file`): `durable` is what `flush`
has pushed to disk, `buffer` what has been written but not yet flushed. -/
structure TextSink where
  durable : List String
  buffer : List String
deriving Repr, DecidableEq

/-- Embedding of `self.text_file.write(s)`. -/
def TextSink.write (t : TextSink) (s : String) : TextSink :=
  { t with buffer := t.buffer ++ [s] }

/-- Embedding of `self.text_file.flush()`. -/
def TextSink.flush (t : TextSink) : TextSink :=
  { durable := t.durable ++ t.buffer, buffer := [] }

/-- Python's `str.strip()`: drop whitespace from both ends. -/
def strip (s : String) : String :=
  String.mk (((s.data.dropWhile Char.isWhitespace).reverse.dropWhile
    Char.isWhitespace).reverse)

/-- Embedding of the segment-text join at line 197: texts are joined with
single-space separators and surrounding whitespace is stripped. -/
def joinSegments (segs : List String) : String :=
  strip (String.intercalate " " segs)

/-- Two-digit zero padding, as `strftime` does for `%M` / `%S`. -/
def pad2 (n : Nat) : String :=
  if n < 10 then "0" ++ toString n else toString n

/-- Embedding of the stamp formatting at line 200, that is
`time.strftime` of `"[%M:%S]"` over `time.gmtime(elapsed)`; `gmtime` wraps
minutes at the hour. -/
def fmtStamp (elapsed : Nat) : String :=
  "[" ++ pad2 (elapsed / 60 % 60) ++ ":" ++ pad2 (elapsed % 60) ++ "]"

/-- The value in seconds displayed by `fmtStamp` (minutes wrap at the hour). -/
def stampVal (elapsed : Nat) : Nat :=
  elapsed / 60 % 60 * 60 + elapsed % 60

/-- Consumer-loop state of `_process_audio`, together with the session sinks
it writes to.  `ring`, `silence_frames`, `speaking`, `start_time` are the
loop's locals; `audioSink` is the wave file's byte content; `textSink` the
transcript file; `uiLines` the lines queued to the text area; `stamps`,
`emptyGuardHits` and `trace` are ghost instrumentation (`stamps` records, per
transcript line, the seconds value displayed by its `[MM:SS]` stamp;
`emptyGuardHits` counts executions of the `if not audio_bytes: return`
guard). -/
structure PState where
  ring : List Nat
  silence_frames : Nat
  speaking : Bool
  start_time : Nat
  audioSink : List Nat
  textSink : TextSink
  uiLines : List String
  stamps : List Nat
  emptyGuardHits : Nat
  trace : List Event
deriving Repr, DecidableEq

/-- Embedding of `_transcribe_utterance(self, audio_bytes, start_time)`
(lines 192–208).  `engine` is the external model call; `.error e` models a
raised exception, carrying the state at the raise.  `idx` (ghost) is the index
of the frame being processed and `now` the wall-clock second at which the call
runs (`time.time()` at line 199).  The int16→float32 normalisation feeding the
model is absorbed into `engine`. -/
def transcribe_utterance (engine : List Nat → Except String (List String))
    (idx now : Nat) (audio_bytes : List Nat) (start_time : Nat)
    (st : PState) : Except (String × PState) PState :=
  if audio_bytes = [] then
    .ok { st with emptyGuardHits := st.emptyGuardHits + 1 }
  else
    match engine audio_bytes with
    | .error e => .error (e, st)
    | .ok segs =>
      let text := joinSegments segs
      if text = "" then .ok st
      else
        let elapsed := now - start_time
        let line := fmtStamp elapsed ++ " " ++ text
        .ok { st with
          textSink := (st.textSink.write (line ++ "\n")).flush
          uiLines := st.uiLines ++ ["🗣️ " ++ line]
          stamps := st.stamps ++ [stampVal elapsed]
          trace := st.trace ++ [Event.writeLine idx line st.audioSink.length] }

/-- One iteration of the `while self.running` body of `_process_audio`
(lines 166–188) on a dequeued frame `f` at loop index `idx`: write the frame
to the wave file, classify it, then run the VAD branch, emitting via
`_transcribe_utterance` when the trailing-silence counter passes 10 and then
resetting `ring`, the counter, `speaking`, and `start_time`. -/
def process_frame (engine : List Nat → Except String (List String))
    (st : PState) (idx : Nat) (f : Frame) : Except (String × PState) PState :=
  let st1 := { st with audioSink := st.audioSink ++ f.bytes
                       trace := st.trace ++ [Event.writeAudio idx f.bytes] }
  let st2 := { st1 with
    trace := st1.trace ++ [Event.classify idx f.is_speech st1.audioSink.length] }
  if f.is_speech then
    .ok { st2 with ring := st2.ring ++ f.bytes, silence_frames := 0,
                   speaking := true }
  else if st2.speaking then
    let sf := st2.silence_frames + 1
    if sf > 10 then
      let st3 := { st2 with trace := st2.trace ++
        [Event.emitUtterance idx st2.ring st2.audioSink.length] }
      match transcribe_utterance engine idx f.time st3.ring st3.start_time
          st3 with
      | .error e => .error e
      | .ok st4 =>
        .ok { st4 with ring := [], silence_frames := 0, speaking := false,
                       start_time := f.time }
    else .ok { st2 with silence_frames := sf }
  else .ok st2

/-- The `while self.running` loop of `_process_audio`: `running i` is the
value of `self.running` observed just before consuming the `i`-th frame;
when it is false the loop exits, returning the state and the frames still
queued.  Frames are the successful `self.audio_q.get` results in order
(`queue.Empty` timeouts only re-check the flag). -/
def process_audio (engine : List Nat → Except String (List String))
    (running : Nat → Bool) :
    PState → Nat → List Frame → Except (String × PState) (PState × List Frame)
  | st, _, [] => .ok (st, [])
  | st, i, f :: rest =>
    if running i then
      match process_frame engine st i f with
      | .error e => .error e
      | .ok st' => process_audio engine running st' (i + 1) rest
    else .ok (st, f :: rest)

/-- State at the top of `_process_audio` (lines 160–164): empty ring, zero
counter, not speaking, `start_time` anchored at loop start `t0`, all sinks
empty. -/
def initState (t0 : Nat) : PState :=
  { ring := [], silence_frames := 0, speaking := false, start_time := t0,
    audioSink := [], textSink := ⟨[], []⟩, uiLines := [], stamps := [],
    emptyGuardHits := 0, trace := [] }

/-- A full session in which the stop flag is never observed false: every
queued frame is consumed. -/
def runAll (engine : List Nat → Except String (List String)) (t0 : Nat)
    (frames : List Frame) : Except (String × PState) (PState × List Frame) :=
  process_audio engine (fun _ => true) (initState t0) 0 frames

/-- The consumer state a run ends in, whether the loop returned or died on an
exception. -/
def stateOf : Except (String × PState) (PState × List Frame) → PState
  | .error (_, st) => st
  | .ok (st, _) => st

/-- The audio-sink writes recorded in a trace, as `(frame index, bytes)`. -/
def audioWrites (t : List Event) : List (Nat × List Nat) :=
  t.filterMap fun e => match e with
    | .writeAudio i b => some (i, b)
    | _ => none

/-- Event well-formedness for a session whose frames all have `fb` bytes:
every logged sink length equals the total size of the frames written so far,
i.e. classification, utterance emission and transcript writing for frame `j`
all happen only after frame `j`'s bytes are in the audio sink. -/
def goodEvent (fb : Nat) : Event → Prop
  | .writeAudio _ b => b.length = fb
  | .classify j _ L => L = (j + 1) * fb
  | .emitUtterance j _ L => L = (j + 1) * fb
  | .writeLine j _ L => L = (j + 1) * fb

/-! ### File-based batch transcription (`load_and_transcribe`, lines 223–311)

Only the transcription loop and its cancellation/failure/output behaviour are
embedded; file decoding, resampling and the progress bar are external
collaborators with no effect on the transcript. -/

/-- Outcome of a batch job: `completed text` means the transcript file was
written with content `text`; on `canceled` and `failed` no file is written. -/
inductive BatchResult where
  | completed (output : String) : BatchResult
  | canceled : BatchResult
  | failed (msg : String) : BatchResult
deriving Repr, DecidableEq

/-- The `for segment in segments` loop of `load_and_transcribe`
(lines 266–283) plus the save step (lines 291–297).  `cancelFlag i` is the
value of `self.cancel_flag` at the `i`-th check (the flag is set
asynchronously from the UI); `produced` are the segment texts the model
generator yields, and `err` a raised exception while pulling the next
segment (`except` at line 284).  Returns the outcome and the number of flag
checks performed (one per produced segment). -/
def batchLoop (cancelFlag : Nat → Bool) :
    Nat → List String → List String → Option String → BatchResult × Nat
  | _, acc, [], none => (.completed (joinSegments acc), 0)
  | _, _, [], some e => (.failed e, 0)
  | i, acc, s :: rest, err =>
    if cancelFlag i then (.canceled, 1)
    else
      let r := batchLoop cancelFlag (i + 1) (acc ++ [s]) rest err
      (r.1, r.2 + 1)

/-- Embedding of `load_and_transcribe` on a decodable file: run the batch
loop from the
first segment with an empty accumulator. -/
def load_and_transcribe (cancelFlag : Nat → Bool) (segs : List String)
    (err : Option String) : BatchResult × Nat :=
  batchLoop cancelFlag 0 [] segs err

/-! ### Concrete sessions used as counterexample inputs -/

/-- A session refuting timestamp monotonicity: one utterance whose trailing
silence completes 70 s after the loop starts, then a second utterance
completing 5 s later.  Frames carry 1-byte payloads; the engine always
returns the segment text `"hi"`. -/
def ce2_frames : List Frame :=
  [⟨[0], true, 60⟩] ++ List.replicate 10 ⟨[0], false, 61⟩ ++
    [⟨[0], false, 70⟩] ++
  [⟨[0], true, 71⟩] ++ List.replicate 10 ⟨[0], false, 72⟩ ++
    [⟨[0], false, 75⟩]

/-- Final state of the `ce2_frames` session. -/
def ce2_state : PState :=
  stateOf (runAll (fun _ => Except.ok ["hi"]) 0 ce2_frames)

/-- A session whose single utterance starts (first speech frame) at wall
clock 2 with the consumer loop started at 0, and whose transcript line is
written at wall clock 9. -/
def ce4_frames : List Frame :=
  [⟨[0], true, 2⟩] ++ List.replicate 10 ⟨[0], false, 3⟩ ++ [⟨[0], false, 9⟩]

/-- Final state of the `ce4_frames` session. -/
def ce4_state : PState :=
  stateOf (runAll (fun _ => Except.ok ["hi"]) 0 ce4_frames)

/-- A session that completes one utterance (frame 0 speech, frames 1–11
silence) and then delivers two further speech frames; 14 frames of one byte
each. -/
def ce5_frames : List Frame :=
  [⟨[0], true, 1⟩] ++ List.replicate 11 ⟨[0], false, 1⟩ ++
    [⟨[0], true, 1⟩, ⟨[0], true, 1⟩]

/-- The `ce5_frames` session run against a model that raises on every
utterance. -/
def ce5_run : Except (String × PState) (PState × List Frame) :=
  runAll (fun _ => Except.error "boom") 0 ce5_frames

/-! ### Concrete states used by witness theorems -/

/-- Final state of the one-frame session used to witness C1. -/
def c1wit_state : PState :=
  { ring := [], silence_frames := 0, speaking := false, start_time := 0,
    audioSink := [1, 2], textSink := ⟨[], []⟩, uiLines := [], stamps := [],
    emptyGuardHits := 0,
    trace := [Event.writeAudio 0 [1, 2], Event.classify 0 false 2] }


/-- Final state of the two-frame, stop-at-1 session used to witness C10. -/
def c10wit_state : PState :=
  { ring := [5], silence_frames := 0, speaking := true, start_time := 0,
    audioSink := [5], textSink := ⟨[], []⟩, uiLines := [], stamps := [],
    emptyGuardHits := 0,
    trace := [Event.writeAudio 0 [5], Event.classify 0 true 1] }


/-- State for the C2-amended witness: speaking with a buffered byte, counter
at the threshold, previous emission at time 60. -/
def c2wit_state : PState :=
  { ring := [7], silence_frames := 10, speaking := true, start_time := 60,
    audioSink := [], textSink := ⟨[], []⟩, uiLines := [], stamps := [],
    emptyGuardHits := 0, trace := [] }


/-- State for the C5-amended witness: ready to emit `[7]`. -/
def c5wit_state : PState :=
  { ring := [7], silence_frames := 10, speaking := true, start_time := 0,
    audioSink := [], textSink := ⟨[], []⟩, uiLines := [], stamps := [],
    emptyGuardHits := 0, trace := [] }


/-- The state `c5wit_state` dies in when the model raises on frame `0`. -/
def c5wit_err_state : PState :=
  { c5wit_state with
    audioSink := [1]
    trace := [Event.writeAudio 0 [1], Event.classify 0 false 1,
      Event.emitUtterance 0 [7] 1] }


/-- State for the C7 witness. -/
def c7wit_state : PState :=
  { ring := [7], silence_frames := 10, speaking := true, start_time := 0,
    audioSink := [], textSink := ⟨[], []⟩, uiLines := [], stamps := [],
    emptyGuardHits := 0, trace := [] }


/-! ### Step lemmas: complete case analyses of `process_frame` -/

/-- Complete enumeration of the successful branches of one consumer-loop
iteration. -/
lemma process_frame_ok_elim {engine : List Nat → Except String (List String)}
    {st : PState} {idx : Nat} {f : Frame} {st' : PState}
    (h : process_frame engine st idx f = .ok st') :
    (f.is_speech = true ∧
      st' = { st with
              ring := st.ring ++ f.bytes
              silence_frames := 0
              speaking := true
              audioSink := st.audioSink ++ f.bytes
              trace := st.trace ++ [Event.writeAudio idx f.bytes,
                Event.classify idx f.is_speech
                  (st.audioSink.length + f.bytes.length)] })
  ∨ (f.is_speech = false ∧ st.speaking = false ∧
      st' = { st with
              audioSink := st.audioSink ++ f.bytes
              trace := st.trace ++ [Event.writeAudio idx f.bytes,
                Event.classify idx f.is_speech
                  (st.audioSink.length + f.bytes.length)] })
  ∨ (f.is_speech = false ∧ st.speaking = true ∧ st.silence_frames < 10 ∧
      st' = { st with
              silence_frames := st.silence_frames + 1
              audioSink := st.audioSink ++ f.bytes
              trace := st.trace ++ [Event.writeAudio idx f.bytes,
                Event.classify idx f.is_speech
                  (st.audioSink.length + f.bytes.length)] })
  ∨ (f.is_speech = false ∧ st.speaking = true ∧ 10 ≤ st.silence_frames ∧
      ((st.ring = [] ∧
        st' = { st with
                ring := []
                silence_frames := 0
                speaking := false
                start_time := f.time
                emptyGuardHits := st.emptyGuardHits + 1
                audioSink := st.audioSink ++ f.bytes
                trace := st.trace ++ [Event.writeAudio idx f.bytes,
                  Event.classify idx f.is_speech
                    (st.audioSink.length + f.bytes.length),
                  Event.emitUtterance idx st.ring
                    (st.audioSink.length + f.bytes.length)] })
      ∨ (∃ segs, st.ring ≠ [] ∧ engine st.ring = .ok segs ∧
          joinSegments segs = "" ∧
          st' = { st with
                  ring := []
                  silence_frames := 0
                  speaking := false
                  start_time := f.time
                  audioSink := st.audioSink ++ f.bytes
                  trace := st.trace ++ [Event.writeAudio idx f.bytes,
                    Event.classify idx f.is_speech
                      (st.audioSink.length + f.bytes.length),
                    Event.emitUtterance idx st.ring
                      (st.audioSink.length + f.bytes.length)] })
      ∨ (∃ segs, st.ring ≠ [] ∧ engine st.ring = .ok segs ∧
          joinSegments segs ≠ "" ∧
          st' = { st with
                  ring := []
                  silence_frames := 0
                  speaking := false
                  start_time := f.time
                  audioSink := st.audioSink ++ f.bytes
                  textSink := ⟨st.textSink.durable ++ (st.textSink.buffer ++
                    [fmtStamp (f.time - st.start_time) ++ " " ++
                      joinSegments segs ++ "\n"]), []⟩
                  uiLines := st.uiLines ++ ["🗣️ " ++ (fmtStamp
                    (f.time - st.start_time) ++ " " ++ joinSegments segs)]
                  stamps := st.stamps ++ [stampVal (f.time - st.start_time)]
                  trace := st.trace ++ [Event.writeAudio idx f.bytes,
                    Event.classify idx f.is_speech
                      (st.audioSink.length + f.bytes.length),
                    Event.emitUtterance idx st.ring
                      (st.audioSink.length + f.bytes.length),
                    Event.writeLine idx (fmtStamp (f.time - st.start_time)
                      ++ " " ++ joinSegments segs)
                      (st.audioSink.length + f.bytes.length)] }))) := by
  by_cases hs : f.is_speech
  · left
    refine ⟨hs, ?_⟩
    simp only [hs]
    simp [process_frame, hs, List.append_assoc] at h
    exact h.symm
  · have hs2 : f.is_speech = false := by simpa using hs
    by_cases hsp : st.speaking
    · by_cases hsf : st.silence_frames < 10
      · right; right; left
        refine ⟨hs2, hsp, hsf, ?_⟩
        have hgt : ¬ st.silence_frames + 1 > 10 := by omega
        simp only [hs2, hsp]
        simp [process_frame, hs2, hsp, hgt, List.append_assoc] at h
        exact h.symm
      · right; right; right
        refine ⟨hs2, hsp, by omega, ?_⟩
        have hgt : st.silence_frames + 1 > 10 := by omega
        by_cases hr : st.ring = []
        · left
          refine ⟨hr, ?_⟩
          simp only [hs2, hsp, hr]
          simp [process_frame, transcribe_utterance, hs2, hsp, hgt, hr,
            List.append_assoc] at h
          exact h.symm
        · cases he : engine st.ring with
          | error e =>
            exfalso
            simp [process_frame, transcribe_utterance, hs2, hsp, hgt, hr,
              he] at h
          | ok segs =>
            by_cases ht : joinSegments segs = ""
            · right; left
              refine ⟨segs, hr, rfl, ht, ?_⟩
              simp only [hs2, hsp]
              simp [process_frame, transcribe_utterance, hs2, hsp, hgt, hr,
                he, ht, List.append_assoc] at h
              exact h.symm
            · right; right
              refine ⟨segs, hr, rfl, ht, ?_⟩
              simp only [hs2, hsp]
              simp [process_frame, transcribe_utterance, hs2, hsp, hgt, hr,
                he, ht, TextSink.write, TextSink.flush,
                List.append_assoc] at h
              exact h.symm
    · have hsp2 : st.speaking = false := by simpa using hsp
      right; left
      refine ⟨hs2, hsp2, ?_⟩
      simp only [hs2, hsp2]
      simp [process_frame, hs2, hsp2, List.append_assoc] at h
      exact h.symm

/-- Complete characterisation of a failing consumer-loop iteration: only the
model call can raise, and it does so inside the emission branch, leaving the
sinks as they were before the call (the frame itself is already in the audio
sink). -/
lemma process_frame_error_elim
    {engine : List Nat → Except String (List String)}
    {st : PState} {idx : Nat} {f : Frame} {e : String} {stE : PState}
    (h : process_frame engine st idx f = .error (e, stE)) :
    f.is_speech = false ∧ st.speaking = true ∧ 10 ≤ st.silence_frames ∧
    st.ring ≠ [] ∧ engine st.ring = .error e ∧
    stE = { st with
            audioSink := st.audioSink ++ f.bytes
            trace := st.trace ++ [Event.writeAudio idx f.bytes,
              Event.classify idx f.is_speech
                (st.audioSink.length + f.bytes.length),
              Event.emitUtterance idx st.ring
                (st.audioSink.length + f.bytes.length)] } := by
  by_cases hs : f.is_speech
  · exfalso; simp [process_frame, hs] at h
  · by_cases hsp : st.speaking
    · by_cases hsf : st.silence_frames < 10
      · exfalso
        have hgt : ¬ st.silence_frames + 1 > 10 := by omega
        simp [process_frame, hs, hsp, hgt] at h
      · have hgt : st.silence_frames + 1 > 10 := by omega
        by_cases hr : st.ring = []
        · exfalso
          simp [process_frame, transcribe_utterance, hs, hsp, hgt, hr] at h
        · cases he : engine st.ring with
          | error e' =>
            have hs2 : f.is_speech = false := by simpa using hs
            have h2 := h
            simp [process_frame, transcribe_utterance, hs2, hsp, hgt, hr,
              he, List.append_assoc] at h2
            refine ⟨hs2, hsp, by omega, hr, ?_, ?_⟩
            · rw [h2.1]
            · simp only [hs2, hsp]
              exact h2.2.symm
          | ok segs =>
            exfalso
            by_cases ht : joinSegments segs = "" <;>
              simp [process_frame, transcribe_utterance, hs, hsp, hgt, hr,
                he, ht] at h
    · exfalso; simp [process_frame, hs, hsp] at h

/-- The projection `audioWrites` distributes over trace concatenation. -/
lemma audioWrites_append (s t : List Event) :
    audioWrites (s ++ t) = audioWrites s ++ audioWrites t :=
  List.filterMap_append s t _

/-- A successful iteration appends exactly the processed frame's bytes to the
audio sink. -/
lemma process_frame_ok_sink {engine : List Nat → Except String (List String)}
    {st : PState} {idx : Nat} {f : Frame} {st' : PState}
    (h : process_frame engine st idx f = .ok st') :
    st'.audioSink = st.audioSink ++ f.bytes := by
  rcases process_frame_ok_elim h with ⟨hs, rfl⟩ | ⟨hs, hsp, rfl⟩ |
    ⟨hs, hsp, hsf, rfl⟩ |
    ⟨hs, hsp, hsf, ⟨hr, rfl⟩ | ⟨segs, hr, he, ht, rfl⟩ |
      ⟨segs, hr, he, ht, rfl⟩⟩ <;> rfl

/-- A successful iteration logs exactly one audio-sink write, for the
processed frame. -/
lemma process_frame_ok_audioWrites
    {engine : List Nat → Except String (List String)}
    {st : PState} {idx : Nat} {f : Frame} {st' : PState}
    (h : process_frame engine st idx f = .ok st') :
    audioWrites st'.trace = audioWrites st.trace ++ [(idx, f.bytes)] := by
  rcases process_frame_ok_elim h with ⟨hs, rfl⟩ | ⟨hs, hsp, rfl⟩ |
    ⟨hs, hsp, hsf, rfl⟩ |
    ⟨hs, hsp, hsf, ⟨hr, rfl⟩ | ⟨segs, hr, he, ht, rfl⟩ |
      ⟨segs, hr, he, ht, rfl⟩⟩ <;>
    simp [audioWrites_append, audioWrites]

/-- Every event logged by a successful iteration carries the index of the
processed frame. -/
lemma process_frame_ok_idx {engine : List Nat → Except String (List String)}
    {st : PState} {idx : Nat} {f : Frame} {st' : PState}
    (h : process_frame engine st idx f = .ok st') :
    ∀ ev ∈ st'.trace, ev ∈ st.trace ∨ ev.idx = idx := by
  rcases process_frame_ok_elim h with ⟨hs, rfl⟩ | ⟨hs, hsp, rfl⟩ |
    ⟨hs, hsp, hsf, rfl⟩ |
    ⟨hs, hsp, hsf, ⟨hr, rfl⟩ | ⟨segs, hr, he, ht, rfl⟩ |
      ⟨segs, hr, he, ht, rfl⟩⟩ <;>
    · intro ev hev
      simp only [List.mem_append] at hev
      rcases hev with hev | hev
      · exact Or.inl hev
      · right
        fin_cases hev <;> rfl

/-- In a uniform-frame-size session, a successful iteration preserves event
well-formedness and grows the sink by one frame size. -/
lemma process_frame_ok_good {engine : List Nat → Except String (List String)}
    {st : PState} {idx : Nat} {f : Frame} {st' : PState} {fb : Nat}
    (h : process_frame engine st idx f = .ok st')
    (hfb : f.bytes.length = fb)
    (hlen : st.audioSink.length = idx * fb)
    (hg : ∀ ev ∈ st.trace, goodEvent fb ev) :
    (∀ ev ∈ st'.trace, goodEvent fb ev) ∧
      st'.audioSink.length = (idx + 1) * fb := by
  have hL : st.audioSink.length + f.bytes.length = (idx + 1) * fb := by
    rw [hlen, hfb]; ring
  constructor
  · rcases process_frame_ok_elim h with ⟨hs, rfl⟩ | ⟨hs, hsp, rfl⟩ |
      ⟨hs, hsp, hsf, rfl⟩ |
      ⟨hs, hsp, hsf, ⟨hr, rfl⟩ | ⟨segs, hr, he, ht, rfl⟩ |
        ⟨segs, hr, he, ht, rfl⟩⟩ <;>
      · intro ev hev
        simp only [List.mem_append] at hev
        rcases hev with hev | hev
        · exact hg ev hev
        · fin_cases hev <;> simp [goodEvent, hfb, hlen] <;> ring
  · rw [process_frame_ok_sink h]
    simp [hlen, hfb]; ring

/-- A successful iteration preserves the invariant that the utterance buffer
is non-empty while speaking, never takes the empty-buffer guard, and emits
only non-empty utterances (frames being non-empty). -/
lemma process_frame_ok_inv {engine : List Nat → Except String (List String)}
    {st : PState} {idx : Nat} {f : Frame} {st' : PState}
    (h : process_frame engine st idx f = .ok st')
    (hb : f.bytes ≠ [])
    (hsr : st.speaking = true → st.ring ≠ []) :
    (st'.speaking = true → st'.ring ≠ []) ∧
    st'.emptyGuardHits = st.emptyGuardHits ∧
    (∀ j u L, Event.emitUtterance j u L ∈ st'.trace →
      Event.emitUtterance j u L ∈ st.trace ∨ u ≠ []) := by
  rcases process_frame_ok_elim h with ⟨hs, rfl⟩ | ⟨hs, hsp, rfl⟩ |
    ⟨hs, hsp, hsf, rfl⟩ |
    ⟨hs, hsp, hsf, ⟨hr, rfl⟩ | ⟨segs, hr, he, ht, rfl⟩ |
      ⟨segs, hr, he, ht, rfl⟩⟩
  · refine ⟨fun _ => by simp [hb], rfl, ?_⟩
    intro j u L hev
    simp only [List.mem_append] at hev
    rcases hev with hev | hev
    · exact Or.inl hev
    · simp at hev
  · refine ⟨hsr, rfl, ?_⟩
    intro j u L hev
    simp only [List.mem_append] at hev
    rcases hev with hev | hev
    · exact Or.inl hev
    · simp at hev
  · refine ⟨fun _ => hsr hsp, rfl, ?_⟩
    intro j u L hev
    simp only [List.mem_append] at hev
    rcases hev with hev | hev
    · exact Or.inl hev
    · simp at hev
  · exact absurd hr (hsr hsp)
  · refine ⟨fun hc => by simp at hc, rfl, ?_⟩
    intro j u L hev
    simp only [List.mem_append] at hev
    rcases hev with hev | hev
    · exact Or.inl hev
    · right
      simp only [List.mem_cons, List.not_mem_nil, or_false] at hev
      rcases hev with hev | hev | hev
      · exact absurd hev (by simp)
      · exact absurd hev (by simp)
      · rw [(Event.emitUtterance.injEq _ _ _ _ _ _).mp hev |>.2.1]
        exact hr
  · refine ⟨fun hc => by simp at hc, rfl, ?_⟩
    intro j u L hev
    simp only [List.mem_append] at hev
    rcases hev with hev | hev
    · exact Or.inl hev
    · right
      simp only [List.mem_cons, List.not_mem_nil, or_false] at hev
      rcases hev with hev | hev | hev | hev
      · exact absurd hev (by simp)
      · exact absurd hev (by simp)
      · rw [(Event.emitUtterance.injEq _ _ _ _ _ _).mp hev |>.2.1]
        exact hr
      · exact absurd hev (by simp)

/-! ### Loop lemmas: inductions over the consumer loop -/

/-- A run of the loop that never observes the stop flag consumes every frame,
appends each frame's bytes to the audio sink in arrival order, and logs
exactly one audio-sink write per frame, in arrival order. -/
lemma process_audio_true_ok {engine : List Nat → Except String (List String)} :
    ∀ (frames : List Frame) (st : PState) (i : Nat) {st' : PState}
      {rest : List Frame},
      process_audio engine (fun _ => true) st i frames = .ok (st', rest) →
      rest = [] ∧
      st'.audioSink = st.audioSink ++ (frames.map Frame.bytes).flatten ∧
      audioWrites st'.trace = audioWrites st.trace ++
        (List.enumFrom i frames).map (fun p => (p.1, p.2.bytes)) := by
  intro frames
  induction frames with
  | nil =>
    intro st i st' rest h
    simp [process_audio] at h
    obtain ⟨rfl, rfl⟩ := h
    simp
  | cons f fs ih =>
    intro st i st' rest h
    simp only [process_audio, if_pos rfl] at h
    cases hpf : process_frame engine st i f with
    | error e => rw [hpf] at h; cases h
    | ok st1 =>
      rw [hpf] at h
      obtain ⟨hrest, hsink, hwr⟩ := ih st1 (i + 1) h
      refine ⟨hrest, ?_, ?_⟩
      · rw [hsink, process_frame_ok_sink hpf]
        simp [List.append_assoc]
      · rw [hwr, process_frame_ok_audioWrites hpf]
        simp [List.enumFrom_cons, List.append_assoc]

/-- In a uniform-frame-size session, every event logged by a full run is
well-formed: each frame is classified, emitted and transcribed only with its
own bytes already in the audio sink. -/
lemma process_audio_good {engine : List Nat → Except String (List String)}
    {fb : Nat} :
    ∀ (frames : List Frame) (st : PState) (i : Nat) {st' : PState}
      {rest : List Frame},
      process_audio engine (fun _ => true) st i frames = .ok (st', rest) →
      (∀ f ∈ frames, f.bytes.length = fb) →
      st.audioSink.length = i * fb →
      (∀ ev ∈ st.trace, goodEvent fb ev) →
      ∀ ev ∈ st'.trace, goodEvent fb ev := by
  intro frames
  induction frames with
  | nil =>
    intro st i st' rest h _ _ hg
    simp [process_audio] at h
    exact h.1 ▸ hg
  | cons f fs ih =>
    intro st i st' rest h hfb hlen hg
    simp only [process_audio, if_pos rfl] at h
    cases hpf : process_frame engine st i f with
    | error e => rw [hpf] at h; cases h
    | ok st1 =>
      rw [hpf] at h
      obtain ⟨hg1, hlen1⟩ := process_frame_ok_good hpf
        (hfb f (by simp)) hlen hg
      exact ih st1 (i + 1) h (fun g hg' => hfb g (by simp [hg'])) hlen1 hg1

/-- For any stop-flag schedule, a session over non-empty frames keeps the
buffer non-empty while speaking, never takes the empty-buffer guard of
`_transcribe_utterance`, and emits only non-empty utterances — whether the
loop returns or dies on a model exception. -/
lemma process_audio_inv {engine : List Nat → Except String (List String)}
    {running : Nat → Bool} :
    ∀ (frames : List Frame) (st : PState) (i : Nat),
      (∀ f ∈ frames, f.bytes ≠ []) →
      (st.speaking = true → st.ring ≠ []) →
      ((stateOf (process_audio engine running st i frames)).speaking = true →
        (stateOf (process_audio engine running st i frames)).ring ≠ []) ∧
      (stateOf (process_audio engine running st i frames)).emptyGuardHits =
        st.emptyGuardHits ∧
      (∀ j u L, Event.emitUtterance j u L ∈
          (stateOf (process_audio engine running st i frames)).trace →
        Event.emitUtterance j u L ∈ st.trace ∨ u ≠ []) := by
  intro frames
  induction frames with
  | nil =>
    intro st i _ hsr
    exact ⟨hsr, rfl, fun j u L h => Or.inl h⟩
  | cons f fs ih =>
    intro st i hb hsr
    by_cases hrn : running i
    · simp only [process_audio, if_pos hrn]
      cases hpf : process_frame engine st i f with
      | error e =>
        obtain ⟨e1, e2⟩ := e
        obtain ⟨_, hsp, _, hr, _, hstE⟩ := process_frame_error_elim hpf
        subst hstE
        refine ⟨fun _ => hr, rfl, ?_⟩
        intro j u L hev
        simp only [stateOf, List.mem_append] at hev
        rcases hev with hev | hev
        · exact Or.inl hev
        · right
          simp only [List.mem_cons, List.not_mem_nil, or_false] at hev
          rcases hev with hev | hev | hev
          · exact absurd hev (by simp)
          · exact absurd hev (by simp)
          · rw [(Event.emitUtterance.injEq _ _ _ _ _ _).mp hev |>.2.1]
            exact hr
      | ok st1 =>
        obtain ⟨hsr1, hguard1, hem1⟩ :=
          process_frame_ok_inv hpf (hb f (by simp)) hsr
        obtain ⟨ih1, ih2, ih3⟩ := ih st1 (i + 1)
          (fun g hg => hb g (by simp [hg])) hsr1
        refine ⟨ih1, by rw [ih2, hguard1], ?_⟩
        intro j u L hev
        rcases ih3 j u L hev with hev1 | hne
        · exact hem1 j u L hev1
        · exact Or.inr hne
    · simp only [process_audio, if_neg hrn]
      exact ⟨hsr, rfl, fun j u L h => Or.inl h⟩

/-- Observing the stop flag false at loop index `k` is the same as running the
loop on only the first `k` queued frames, the remaining frames staying in the
queue untouched. -/
lemma process_audio_stop_split
    {engine : List Nat → Except String (List String)} {k : Nat} :
    ∀ (frames : List Frame) (st : PState) (i : Nat), i ≤ k →
      process_audio engine (fun j => decide (j < k)) st i frames =
        (process_audio engine (fun _ => true) st i
            (frames.take (k - i))).map
          (fun p => (p.1, frames.drop (k - i))) := by
  intro frames
  induction frames with
  | nil =>
    intro st i _
    simp [process_audio, Except.map]
  | cons f fs ih =>
    intro st i hik
    by_cases hi : i < k
    · have hk : k - i = (k - (i + 1)) + 1 := by omega
      simp only [process_audio, hk, List.take_succ_cons, List.drop_succ_cons,
        decide_eq_true_eq, if_pos hi, if_pos rfl]
      cases hpf : process_frame engine st i f with
      | error e => simp [Except.map]
      | ok st1 => exact ih st1 (i + 1) (by omega)
    · have hik' : i = k := by omega
      have hk : k - i = 0 := by omega
      simp [process_audio, hk, hi, Except.map]

/-- Every event logged by a full run carries the index of a consumed frame. -/
lemma process_audio_idx_bound
    {engine : List Nat → Except String (List String)} :
    ∀ (frames : List Frame) (st : PState) (i : Nat) {st' : PState}
      {rest : List Frame},
      process_audio engine (fun _ => true) st i frames = .ok (st', rest) →
      ∀ ev ∈ st'.trace, ev ∈ st.trace ∨
        (i ≤ ev.idx ∧ ev.idx < i + frames.length) := by
  intro frames
  induction frames with
  | nil =>
    intro st i st' rest h
    simp [process_audio] at h
    intro ev hev
    exact Or.inl (h.1 ▸ hev)
  | cons f fs ih =>
    intro st i st' rest h
    simp only [process_audio, if_pos rfl] at h
    cases hpf : process_frame engine st i f with
    | error e => rw [hpf] at h; cases h
    | ok st1 =>
      rw [hpf] at h
      intro ev hev
      rcases ih st1 (i + 1) h ev hev with hev1 | ⟨hlo, hhi⟩
      · rcases process_frame_ok_idx hpf ev hev1 with hev0 | hidx
        · exact Or.inl hev0
        · right
          rw [hidx]
          exact ⟨Nat.le_refl i, by simp only [List.length_cons]; omega⟩
      · right
        constructor
        · omega
        · simp only [List.length_cons]; omega

/-! ### Claim theorems -/

/-- Concatenating uniformly sized frame payloads yields `N × frame-size`
bytes. -/
lemma length_flatten_uniform (frames : List Frame) (fb : Nat)
    (hfb : ∀ f ∈ frames, f.bytes.length = fb) :
    ((frames.map Frame.bytes).flatten).length = frames.length * fb := by
  induction frames with
  | nil => simp
  | cons f fs ih =>
    simp only [List.map_cons, List.flatten_cons, List.length_append,
      List.length_cons]
    rw [hfb f (by simp), ih (fun g hg => hfb g (by simp [hg]))]
    ring

/-- Claim C1: while recording is active, every consumed frame's raw bytes are
appended to the audio sink exactly once, in arrival order, before the frame
is classified and before any utterance emission or transcript write made on
that frame; after `N` frames of size `fb` the audio sink holds exactly
`N * fb` bytes, for any interleaving of speech and silence. -/
theorem sink_bytes_exactly_once_in_order
    (engine : List Nat → Except String (List String)) (t0 fb : Nat)
    (frames : List Frame) (st : PState) (rest : List Frame)
    (hfb : ∀ f ∈ frames, f.bytes.length = fb)
    (hok : runAll engine t0 frames = .ok (st, rest)) :
    rest = [] ∧
    st.audioSink = (frames.map Frame.bytes).flatten ∧
    st.audioSink.length = frames.length * fb ∧
    audioWrites st.trace = frames.enum.map (fun p => (p.1, p.2.bytes)) ∧
    (∀ j s L, Event.classify j s L ∈ st.trace → L = (j + 1) * fb) ∧
    (∀ j u L, Event.emitUtterance j u L ∈ st.trace → L = (j + 1) * fb) ∧
    (∀ j l L, Event.writeLine j l L ∈ st.trace → L = (j + 1) * fb) := by
  obtain ⟨hrest, hsink, hwr⟩ := process_audio_true_ok frames (initState t0)
    0 hok
  have hsink' : st.audioSink = (frames.map Frame.bytes).flatten := by
    simpa [initState] using hsink
  have hgood : ∀ ev ∈ st.trace, goodEvent fb ev :=
    process_audio_good frames (initState t0) 0 hok hfb (by simp [initState])
      (by simp [initState])
  refine ⟨hrest, hsink', ?_, ?_, ?_, ?_, ?_⟩
  · rw [hsink']
    exact length_flatten_uniform frames fb hfb
  · simpa [initState, audioWrites, List.enum] using hwr
  · exact fun j s L hm => hgood _ hm
  · exact fun j u L hm => hgood _ hm
  · exact fun j l L hm => hgood _ hm

theorem sink_bytes_exactly_once_in_order_witness :
    (∀ f ∈ [Frame.mk [1, 2] false 0], f.bytes.length = 2) ∧
    (runAll (fun _ => Except.ok []) 0 [Frame.mk [1, 2] false 0] =
      .ok (c1wit_state, [])) ∧
    (([] : List Frame) = [] ∧
     c1wit_state.audioSink =
       (([Frame.mk [1, 2] false 0]).map Frame.bytes).flatten ∧
     c1wit_state.audioSink.length = [Frame.mk [1, 2] false 0].length * 2 ∧
     audioWrites c1wit_state.trace =
       ([Frame.mk [1, 2] false 0]).enum.map (fun p => (p.1, p.2.bytes)) ∧
     (∀ j s L, Event.classify j s L ∈ c1wit_state.trace →
        L = (j + 1) * 2) ∧
     (∀ j u L, Event.emitUtterance j u L ∈ c1wit_state.trace →
        L = (j + 1) * 2) ∧
     (∀ j l L, Event.writeLine j l L ∈ c1wit_state.trace →
        L = (j + 1) * 2)) :=
  ⟨by decide, by rfl,
    sink_bytes_exactly_once_in_order (fun _ => Except.ok []) 0 2
      [Frame.mk [1, 2] false 0] c1wit_state [] (by decide) (by rfl)⟩

/-- Claim C8: the audio callback leaves the frame queue unchanged whenever
the running flag is false, and enqueues exactly one copy of the delivered
frame whenever it is true — regardless of the device status value. -/
theorem audio_callback_enqueue_iff_running (status : Bool)
    (frame : List Nat) (q : List (List Nat)) :
    audio_callback false status frame q = q ∧
    audio_callback true status frame q = q ++ [frame] :=
  ⟨rfl, rfl⟩

/-- Claim C9: over non-empty frames (real frames hold 480 samples = 960
bytes), and for any stop-flag schedule and any engine, the consumer loop
keeps the utterance buffer non-empty whenever `speaking` is set, every
emitted utterance is non-empty, and the `if not audio_bytes: return` guard of
`_transcribe_utterance` is never executed — whether the loop returns or dies
on a model exception. -/
theorem speaking_implies_ring_nonempty
    (engine : List Nat → Except String (List String)) (running : Nat → Bool)
    (t0 : Nat) (frames : List Frame)
    (hb : ∀ f ∈ frames, f.bytes ≠ []) :
    ((stateOf (process_audio engine running (initState t0) 0
        frames)).speaking = true →
      (stateOf (process_audio engine running (initState t0) 0
        frames)).ring ≠ []) ∧
    (stateOf (process_audio engine running (initState t0) 0
      frames)).emptyGuardHits = 0 ∧
    (∀ j u L, Event.emitUtterance j u L ∈
        (stateOf (process_audio engine running (initState t0) 0
          frames)).trace → u ≠ []) := by
  obtain ⟨h1, h2, h3⟩ := @process_audio_inv engine running frames
    (initState t0) 0 hb (by simp [initState])
  refine ⟨h1, by simpa [initState] using h2, ?_⟩
  intro j u L hm
  rcases h3 j u L hm with hin | hne
  · simp [initState] at hin
  · exact hne

theorem speaking_implies_ring_nonempty_witness :
    (∀ f ∈ [Frame.mk [1] true 0], f.bytes ≠ []) ∧
    (((stateOf (process_audio (fun _ => Except.ok [])
        (fun _ => true) (initState 0) 0 [Frame.mk [1] true 0])).speaking =
          true →
      (stateOf (process_audio (fun _ => Except.ok [])
        (fun _ => true) (initState 0) 0 [Frame.mk [1] true 0])).ring ≠ []) ∧
    (stateOf (process_audio (fun _ => Except.ok [])
      (fun _ => true) (initState 0) 0
        [Frame.mk [1] true 0])).emptyGuardHits = 0 ∧
    (∀ j u L, Event.emitUtterance j u L ∈
        (stateOf (process_audio (fun _ => Except.ok [])
          (fun _ => true) (initState 0) 0
            [Frame.mk [1] true 0])).trace → u ≠ [])) :=
  ⟨by decide,
    speaking_implies_ring_nonempty (fun _ => Except.ok []) (fun _ => true)
      0 [Frame.mk [1] true 0] (by decide)⟩

/-- Claim C10: if the stop flag is observed false at loop index `k`, the
consumer loop exits at once: the frames from index `k` on stay in the queue,
the final state is exactly that of processing the first `k` frames, the audio
sink holds only the consumed frames' bytes, and nothing (in particular no
utterance emission and no transcript write) happens on behalf of a frame of
index `≥ k` — the in-progress utterance buffer is simply dropped. -/
theorem stop_flag_halts_without_drain
    (engine : List Nat → Except String (List String)) (t0 k : Nat)
    (frames : List Frame) (st : PState) (rest : List Frame)
    (hok : process_audio engine (fun j => decide (j < k)) (initState t0) 0
      frames = .ok (st, rest)) :
    rest = frames.drop k ∧
    process_audio engine (fun _ => true) (initState t0) 0 (frames.take k) =
      .ok (st, []) ∧
    st.audioSink = ((frames.take k).map Frame.bytes).flatten ∧
    (∀ ev ∈ st.trace, ev.idx < k) := by
  have hsplit := @process_audio_stop_split engine k frames
    (initState t0) 0 (Nat.zero_le k)
  rw [Nat.sub_zero] at hsplit
  rw [hsplit] at hok
  cases hrt : process_audio engine (fun _ => true) (initState t0) 0
      (frames.take k) with
  | error e => rw [hrt] at hok; cases hok
  | ok p =>
    obtain ⟨st1, r1⟩ := p
    rw [hrt] at hok
    simp only [Except.map] at hok
    have h3 := (Except.ok.injEq _ _).mp hok
    have hst : st1 = st := congrArg Prod.fst h3
    have hrest : frames.drop k = rest := congrArg Prod.snd h3
    obtain ⟨hr1, hsink, -⟩ := process_audio_true_ok (frames.take k)
      (initState t0) 0 hrt
    subst hst
    refine ⟨hrest.symm, by rw [hr1],
      by simpa [initState] using hsink, ?_⟩
    intro ev hev
    rcases process_audio_idx_bound (frames.take k) (initState t0) 0 hrt ev
        hev with hin | ⟨-, hlt⟩
    · simp [initState] at hin
    · have : (frames.take k).length ≤ k := by
        simp [List.length_take]
      omega

theorem stop_flag_halts_without_drain_witness :
    (process_audio (fun _ => Except.ok []) (fun j => decide (j < 1))
      (initState 0) 0 [Frame.mk [5] true 0, Frame.mk [6] true 0] =
      .ok (c10wit_state, [Frame.mk [6] true 0])) ∧
    ([Frame.mk [6] true 0] =
      ([Frame.mk [5] true 0, Frame.mk [6] true 0]).drop 1 ∧
     process_audio (fun _ => Except.ok []) (fun _ => true) (initState 0) 0
       (([Frame.mk [5] true 0, Frame.mk [6] true 0]).take 1) =
       .ok (c10wit_state, []) ∧
     c10wit_state.audioSink =
       ((([Frame.mk [5] true 0, Frame.mk [6] true 0]).take 1).map
         Frame.bytes).flatten ∧
     (∀ ev ∈ c10wit_state.trace, ev.idx < 1)) :=
  ⟨by rfl,
    stop_flag_halts_without_drain (fun _ => Except.ok []) 0 1
      [Frame.mk [5] true 0, Frame.mk [6] true 0] c10wit_state
      [Frame.mk [6] true 0] (by rfl)⟩

/-- Claim C2 counterexample: a session whose first utterance completes 70 s
after the loop starts and whose second completes 5 s later produces the
transcript lines `[01:10] hi` then `[00:05] hi` — the timestamps decrease,
because `start_time` is reset after every emission (line 188). -/
theorem transcript_stamps_not_monotone_ce :
    ce2_state.textSink.durable = ["[01:10] hi\n", "[00:05] hi\n"] ∧
    ce2_state.stamps = [70, 5] ∧
    ¬ List.Pairwise (· ≤ ·) ce2_state.stamps := by
  refine ⟨by decide, by decide, ?_⟩
  intro hmono
  have : ce2_state.stamps = [70, 5] := by decide
  rw [this] at hmono
  exact absurd (List.pairwise_cons.mp hmono).1 (by decide)

/-- Claim C2 amended: when the trailing-silence threshold fires and the
transcription result is non-empty, the appended line's stamp value is the
wall-clock time elapsed since the previous emission (`st.start_time`, which
the loop resets to the current time after every emission — line 188), not
since session start, measured when the line is written; lines themselves are
appended in utterance order, each paired with its ghost stamp value. -/
theorem stamp_measures_since_previous_emission
    (engine : List Nat → Except String (List String)) (st : PState)
    (i : Nat) (f : Frame) (segs : List String)
    (hsp : st.speaking = true) (hsf : st.silence_frames = 10)
    (hns : f.is_speech = false) (hr : st.ring ≠ [])
    (he : engine st.ring = .ok segs) (ht : joinSegments segs ≠ "") :
    process_frame engine st i f = .ok { st with
      ring := []
      silence_frames := 0
      speaking := false
      start_time := f.time
      audioSink := st.audioSink ++ f.bytes
      textSink := ⟨st.textSink.durable ++ (st.textSink.buffer ++
        [fmtStamp (f.time - st.start_time) ++ " " ++ joinSegments segs ++
          "\n"]), []⟩
      uiLines := st.uiLines ++ ["🗣️ " ++ (fmtStamp
        (f.time - st.start_time) ++ " " ++ joinSegments segs)]
      stamps := st.stamps ++ [stampVal (f.time - st.start_time)]
      trace := st.trace ++ [Event.writeAudio i f.bytes,
        Event.classify i f.is_speech
          (st.audioSink.length + f.bytes.length),
        Event.emitUtterance i st.ring
          (st.audioSink.length + f.bytes.length),
        Event.writeLine i (fmtStamp (f.time - st.start_time) ++ " " ++
          joinSegments segs) (st.audioSink.length + f.bytes.length)] } := by
  have hgt : st.silence_frames + 1 > 10 := by omega
  simp [process_frame, transcribe_utterance, hsp, hns, hr, he, ht, hgt,
    TextSink.write, TextSink.flush, List.append_assoc]

theorem stamp_measures_since_previous_emission_witness :
    (c2wit_state.speaking = true ∧ c2wit_state.silence_frames = 10 ∧
     (Frame.mk [1] false 65).is_speech = false ∧ c2wit_state.ring ≠ [] ∧
     (fun _ => Except.ok ["hi"] : List Nat → Except String (List String))
       c2wit_state.ring = .ok ["hi"] ∧ joinSegments ["hi"] ≠ "") ∧
    process_frame (fun _ => Except.ok ["hi"]) c2wit_state 0
      (Frame.mk [1] false 65) = .ok { c2wit_state with
        ring := []
        silence_frames := 0
        speaking := false
        start_time := (Frame.mk [1] false 65).time
        audioSink := c2wit_state.audioSink ++ (Frame.mk [1] false 65).bytes
        textSink := ⟨c2wit_state.textSink.durable ++
          (c2wit_state.textSink.buffer ++
          [fmtStamp ((Frame.mk [1] false 65).time - c2wit_state.start_time)
            ++ " " ++ joinSegments ["hi"] ++ "\n"]), []⟩
        uiLines := c2wit_state.uiLines ++ ["🗣️ " ++ (fmtStamp
          ((Frame.mk [1] false 65).time - c2wit_state.start_time) ++ " " ++
          joinSegments ["hi"])]
        stamps := c2wit_state.stamps ++ [stampVal
          ((Frame.mk [1] false 65).time - c2wit_state.start_time)]
        trace := c2wit_state.trace ++ [Event.writeAudio 0
            (Frame.mk [1] false 65).bytes,
          Event.classify 0 (Frame.mk [1] false 65).is_speech
            (c2wit_state.audioSink.length +
              (Frame.mk [1] false 65).bytes.length),
          Event.emitUtterance 0 c2wit_state.ring
            (c2wit_state.audioSink.length +
              (Frame.mk [1] false 65).bytes.length),
          Event.writeLine 0 (fmtStamp ((Frame.mk [1] false 65).time -
              c2wit_state.start_time) ++ " " ++ joinSegments ["hi"])
            (c2wit_state.audioSink.length +
              (Frame.mk [1] false 65).bytes.length)] } :=
  ⟨⟨rfl, rfl, rfl, by decide, rfl, by decide⟩,
    stamp_measures_since_previous_emission (fun _ => Except.ok ["hi"])
      c2wit_state 0 (Frame.mk [1] false 65) ["hi"] rfl rfl rfl (by decide)
      rfl (by decide)⟩

/-- Claim C4 counterexample: a session started at wall clock 0 whose only
utterance begins (first speech frame) at wall clock 2 but whose trailing
silence completes at wall clock 9 gets the line `[00:09] hi`: the stamp is
computed from the wall clock at the moment the line is written, not from the
elapsed time at the utterance's start (which would give `[00:02]`). -/
theorem stamp_not_session_elapsed_ce :
    ce4_state.textSink.durable = ["[00:09] hi\n"] ∧
    ce4_state.stamps = [9] ∧
    (ce4_frames.head?.map Frame.time = some 2) ∧
    fmtStamp 2 = "[00:02]" ∧
    ce4_state.stamps ≠ [2] := by
  refine ⟨by decide, by decide, by decide, by decide, by decide⟩

/-- Claim C4 amended: for every utterance with non-empty bytes whose
transcription result has non-empty text, `_transcribe_utterance` appends
exactly one line `[MM:SS] text` to the text sink and flushes it immediately
(the buffer is empty afterwards), queues exactly one UI line, and the stamp
renders `now - start_time` (wall clock at the write minus the reference reset
at the previous emission), with minutes wrapped modulo one hour by
`gmtime`. -/
theorem transcribe_writes_one_flushed_line
    (engine : List Nat → Except String (List String)) (idx now : Nat)
    (bytes : List Nat) (t : Nat) (st : PState) (segs : List String)
    (hb : bytes ≠ []) (he : engine bytes = .ok segs)
    (ht : joinSegments segs ≠ "") :
    transcribe_utterance engine idx now bytes t st = .ok { st with
      textSink := ⟨st.textSink.durable ++ (st.textSink.buffer ++
        [fmtStamp (now - t) ++ " " ++ joinSegments segs ++ "\n"]), []⟩
      uiLines := st.uiLines ++ ["🗣️ " ++ (fmtStamp (now - t) ++ " " ++
        joinSegments segs)]
      stamps := st.stamps ++ [stampVal (now - t)]
      trace := st.trace ++ [Event.writeLine idx (fmtStamp (now - t) ++ " "
        ++ joinSegments segs) st.audioSink.length] } := by
  simp [transcribe_utterance, hb, he, ht, TextSink.write, TextSink.flush]

theorem transcribe_writes_one_flushed_line_witness :
    (([7] : List Nat) ≠ [] ∧
     (fun _ => Except.ok ["hi"] : List Nat → Except String (List String))
       [7] = .ok ["hi"] ∧ joinSegments ["hi"] ≠ "") ∧
    transcribe_utterance (fun _ => Except.ok ["hi"]) 3 130 [7] 60
      (initState 0) = .ok { initState 0 with
        textSink := ⟨(initState 0).textSink.durable ++
          ((initState 0).textSink.buffer ++
          [fmtStamp (130 - 60) ++ " " ++ joinSegments ["hi"] ++ "\n"]), []⟩
        uiLines := (initState 0).uiLines ++ ["🗣️ " ++ (fmtStamp (130 - 60)
          ++ " " ++ joinSegments ["hi"])]
        stamps := (initState 0).stamps ++ [stampVal (130 - 60)]
        trace := (initState 0).trace ++ [Event.writeLine 3
          (fmtStamp (130 - 60) ++ " " ++ joinSegments ["hi"])
          (initState 0).audioSink.length] } :=
  ⟨⟨by decide, rfl, by decide⟩,
    transcribe_writes_one_flushed_line (fun _ => Except.ok ["hi"]) 3 130
      [7] 60 (initState 0) ["hi"] (by decide) rfl (by decide)⟩

/-- Claim C5 counterexample: with a model that raises on every utterance, the
session `ce5_frames` dies at the first emission (after consuming 12 of its
14 frames): the exception is not caught, no warning is surfaced in the
transcript or UI stream, and the remaining frames are never processed. -/
theorem engine_failure_kills_pipeline_ce :
    ce5_run = .error ("boom", stateOf ce5_run) ∧
    (stateOf ce5_run).audioSink.length = 12 ∧
    ce5_frames.length = 14 ∧
    (stateOf ce5_run).textSink.durable = [] ∧
    (stateOf ce5_run).textSink.buffer = [] ∧
    (stateOf ce5_run).uiLines = [] := by
  exact ⟨by rfl, by decide, by decide, by decide, by decide, by decide⟩

/-- Claim C5 amended: a model exception while transcribing an utterance is
not caught in the live pipeline — `_process_audio` has no handler around
`_transcribe_utterance` — so it propagates out of the consumer loop
immediately: the loop result is the error itself whatever frames remain
queued, no warning line is written to the transcript or the UI, and the loop
(hence any retry) is over. -/
theorem engine_failure_propagates
    (engine : List Nat → Except String (List String)) (running : Nat → Bool)
    (st : PState) (i : Nat) (f : Frame) (rest : List Frame) (e : String)
    (stE : PState)
    (hrun : running i = true)
    (herr : process_frame engine st i f = .error (e, stE)) :
    process_audio engine running st i (f :: rest) = .error (e, stE) ∧
    stE.textSink = st.textSink ∧
    stE.uiLines = st.uiLines ∧
    engine st.ring = .error e := by
  obtain ⟨hs, hsp, hsf, hr, he, hstE⟩ := process_frame_error_elim herr
  refine ⟨?_, ?_, ?_, he⟩
  · simp [process_audio, hrun, herr]
  · rw [hstE]
  · rw [hstE]

theorem engine_failure_propagates_witness :
    ((fun _ => true : Nat → Bool) 0 = true ∧
     process_frame (fun _ => Except.error "boom") c5wit_state 0
       (Frame.mk [1] false 5) = .error ("boom", c5wit_err_state)) ∧
    (process_audio (fun _ => Except.error "boom") (fun _ => true)
       c5wit_state 0 [Frame.mk [1] false 5, Frame.mk [1] true 6] =
       .error ("boom", c5wit_err_state) ∧
     c5wit_err_state.textSink = c5wit_state.textSink ∧
     c5wit_err_state.uiLines = c5wit_state.uiLines ∧
     (fun _ => Except.error "boom" : List Nat → Except String (List String))
       c5wit_state.ring = .error "boom") :=
  ⟨⟨rfl, by rfl⟩,
    engine_failure_propagates (fun _ => Except.error "boom")
      (fun _ => true) c5wit_state 0 (Frame.mk [1] false 5)
      [Frame.mk [1] true 6] "boom" c5wit_err_state rfl (by rfl)⟩

/-- Claim C7: when an emitted utterance transcribes to empty text (after
joining the segment texts with spaces and stripping), the consumer writes no
transcript line and queues no UI line, and the iteration otherwise performs
the standard post-emission reset (buffer cleared, counter zeroed, `speaking`
off, `start_time` rebased), so subsequent utterances are processed exactly as
usual. -/
theorem empty_text_writes_nothing
    (engine : List Nat → Except String (List String)) (st : PState)
    (i : Nat) (f : Frame) (segs : List String)
    (hsp : st.speaking = true) (hsf : st.silence_frames = 10)
    (hns : f.is_speech = false) (hr : st.ring ≠ [])
    (he : engine st.ring = .ok segs) (ht : joinSegments segs = "") :
    process_frame engine st i f = .ok { st with
      ring := []
      silence_frames := 0
      speaking := false
      start_time := f.time
      audioSink := st.audioSink ++ f.bytes
      trace := st.trace ++ [Event.writeAudio i f.bytes,
        Event.classify i f.is_speech
          (st.audioSink.length + f.bytes.length),
        Event.emitUtterance i st.ring
          (st.audioSink.length + f.bytes.length)] } := by
  have hgt : st.silence_frames + 1 > 10 := by omega
  simp [process_frame, transcribe_utterance, hsp, hns, hr, he, ht, hgt,
    List.append_assoc]

theorem empty_text_writes_nothing_witness :
    (c7wit_state.speaking = true ∧ c7wit_state.silence_frames = 10 ∧
     (Frame.mk [1] false 5).is_speech = false ∧ c7wit_state.ring ≠ [] ∧
     (fun _ => Except.ok [""] : List Nat → Except String (List String))
       c7wit_state.ring = .ok [""] ∧ joinSegments [""] = "") ∧
    process_frame (fun _ => Except.ok [""]) c7wit_state 0
      (Frame.mk [1] false 5) = .ok { c7wit_state with
        ring := []
        silence_frames := 0
        speaking := false
        start_time := (Frame.mk [1] false 5).time
        audioSink := c7wit_state.audioSink ++ (Frame.mk [1] false 5).bytes
        trace := c7wit_state.trace ++ [Event.writeAudio 0
            (Frame.mk [1] false 5).bytes,
          Event.classify 0 (Frame.mk [1] false 5).is_speech
            (c7wit_state.audioSink.length +
              (Frame.mk [1] false 5).bytes.length),
          Event.emitUtterance 0 c7wit_state.ring
            (c7wit_state.audioSink.length +
              (Frame.mk [1] false 5).bytes.length)] } :=
  ⟨⟨rfl, rfl, rfl, by decide, rfl, by decide⟩,
    empty_text_writes_nothing (fun _ => Except.ok [""]) c7wit_state 0
      (Frame.mk [1] false 5) [""] rfl rfl rfl (by decide) rfl (by decide)⟩

/-- Cancellation in the batch loop, generalised over the starting check
index. -/
lemma batchLoop_cancel (flag : Nat → Bool) (err : Option String) :
    ∀ (segs : List String) (i : Nat) (acc : List String) (k : Nat),
      k < segs.length → flag (i + k) = true →
      (∀ j, j < k → flag (i + j) = false) →
      batchLoop flag i acc segs err = (.canceled, k + 1) := by
  intro segs
  induction segs with
  | nil => intro i acc k hk; exact absurd hk (by simp)
  | cons s rest ih =>
    intro i acc k hk hset hbef
    cases k with
    | zero =>
      have : flag i = true := by simpa using hset
      simp [batchLoop, this]
    | succ k' =>
      have h0 : flag i = false := by simpa using hbef 0 (Nat.succ_pos k')
      have hr := ih (i + 1) (acc ++ [s]) k'
        (by simpa [Nat.succ_lt_succ_iff] using hk)
        (by rw [show i + 1 + k' = i + (k' + 1) by omega]; exact hset)
        (fun j hj => by
          rw [show i + 1 + j = i + (j + 1) by omega]
          exact hbef (j + 1) (by omega))
      simp [batchLoop, h0, hr]

/-- Claim C6: in file-based batch transcription, the cancellation flag is
checked once per produced segment; when it first reads true at the `k`-th
produced segment, the loop stops after exactly `k + 1` checks (consuming no
further segments), the job outcome is `canceled` — no transcript file is
written and no segment text is retained — and `canceled` is distinct from
both `failed` and `completed`. -/
theorem batch_cancel_stops_without_output (flag : Nat → Bool)
    (segs : List String) (err : Option String) (k : Nat)
    (hk : k < segs.length) (hset : flag k = true)
    (hbef : ∀ j, j < k → flag j = false) :
    load_and_transcribe flag segs err = (.canceled, k + 1) ∧
    (∀ e, (BatchResult.canceled : BatchResult) ≠ .failed e) ∧
    (∀ o, (BatchResult.canceled : BatchResult) ≠ .completed o) := by
  refine ⟨?_, ?_, ?_⟩
  · exact batchLoop_cancel flag err segs 0 [] k hk (by simpa using hset)
      (fun j hj => by simpa using hbef j hj)
  · intro e h; cases h
  · intro o h; cases h

theorem batch_cancel_stops_without_output_witness :
    (3 < (["a", "b", "c", "d", "e"] : List String).length ∧
     (fun i => decide (3 ≤ i)) 3 = true ∧
     (∀ j, j < 3 → (fun i => decide (3 ≤ i)) j = false)) ∧
    (load_and_transcribe (fun i => decide (3 ≤ i))
       ["a", "b", "c", "d", "e"] none = (.canceled, 4) ∧
     (∀ e, (BatchResult.canceled : BatchResult) ≠ .failed e) ∧
     (∀ o, (BatchResult.canceled : BatchResult) ≠ .completed o)) :=
  ⟨⟨by decide, by decide, by decide⟩,
    batch_cancel_stops_without_output (fun i => decide (3 ≤ i))
      ["a", "b", "c", "d", "e"] none 3 (by decide) (by decide)
      (by decide)⟩

/-! ### Segmenter lemmas: the emission positions of `_process_audio` -/

/-- The property `EmissionPos` only inspects indices at most `i`, so it is
stable under
appending to the right. -/
lemma emissionAt_append_left (p s : List Bool) (i : Nat)
    (hi : i < p.length) :
    emissionAt (p ++ s) i = emissionAt p i := by
  by_cases h11 : 11 ≤ i
  · have h1 : (p ++ s)[i - 11]? = p[i - 11]? :=
      List.getElem?_append_left (by omega)
    have h2 : ∀ j, j < 11 → (p ++ s)[i - 10 + j]? = p[i - 10 + j]? := by
      intro j hj
      exact List.getElem?_append_left (by omega)
    apply decide_eq_decide.mpr
    unfold EmissionPos
    rw [h1]
    constructor
    · rintro ⟨a, b, c⟩
      exact ⟨a, b, fun j hj => (h2 j hj) ▸ c j hj⟩
    · rintro ⟨a, b, c⟩
      exact ⟨a, b, fun j hj => (h2 j hj).trans (c j hj)⟩
  · unfold emissionAt
    rw [decide_eq_false (fun hc => h11 hc.1),
      decide_eq_false (fun hc => h11 hc.1)]

/-- Appending one frame preserves the segmenter invariant. -/
lemma seg_inv_step {p : List Bool} {st : SegState} (b : Bool)
    (h : SegInv p st) : SegInv (p ++ [b]) (segStep st b).1 := by
  rcases h with ⟨hall, rfl⟩ | ⟨q, k, rfl, ⟨hk, rfl⟩ | ⟨hk, rfl⟩⟩
  · cases b
    · left
      refine ⟨?_, by simp [segStep]⟩
      intro x hx
      rcases List.mem_append.mp hx with hx | hx
      · exact hall x hx
      · simpa using hx
    · right
      exact ⟨p, 0, by simp, Or.inl ⟨by omega, by simp [segStep]⟩⟩
  · cases b
    · by_cases hk10 : k = 10
      · right
        refine ⟨q, k + 1, ?_, Or.inr ⟨by omega, ?_⟩⟩
        · rw [List.replicate_succ' k false]
          simp [List.append_assoc]
        · subst hk10
          rfl
      · right
        refine ⟨q, k + 1, ?_, Or.inl ⟨by omega, ?_⟩⟩
        · rw [List.replicate_succ' k false]
          simp [List.append_assoc]
        · have hc : ¬ k + 1 > 10 := by omega
          simp [segStep, hc]
    · right
      exact ⟨q ++ true :: List.replicate k false, 0, by simp,
        Or.inl ⟨by omega, by simp [segStep]⟩⟩
  · cases b
    · right
      refine ⟨q, k + 1, ?_, Or.inr ⟨by omega, ?_⟩⟩
      · rw [List.replicate_succ' k false]
        simp [List.append_assoc]
      · simp [segStep]
    · right
      exact ⟨q ++ true :: List.replicate k false, 0, by simp,
        Or.inl ⟨by omega, by simp [segStep]⟩⟩

/-- Under the invariant, the segmenter emits on the next frame exactly when
the new frame completes the declarative emission pattern at the end of the
extended prefix. -/
lemma seg_step_emission {p : List Bool} {st : SegState} (b : Bool)
    (h : SegInv p st) :
    emissionAt (p ++ [b]) p.length = (segStep st b).2 := by
  rcases h with ⟨hall, rfl⟩ | ⟨q, k, rfl, ⟨hk, rfl⟩ | ⟨hk, rfl⟩⟩
  · -- all-silence prefix, state ⟨0, false⟩: never emits
    have hstep : (segStep ⟨0, false⟩ b).2 = false := by
      cases b <;> simp [segStep]
    rw [hstep]
    apply decide_eq_false
    rintro ⟨h11, h2, h3⟩
    cases b
    · -- lookup at p.length - 11 lands in the all-false prefix
      rw [List.getElem?_append_left (by omega)] at h2
      have := hall true (List.getElem?_mem h2)
      simp at this
    · -- the window's last slot is the new speech frame
      have h10 := h3 10 (by omega)
      rw [show p.length - 10 + 10 = p.length by omega,
        List.getElem?_append_right (by omega), Nat.sub_self] at h10
      simp at h10
  · -- prefix `q ++ true :: false^k`, k ≤ 10, state ⟨k, true⟩
    have hn : (q ++ true :: List.replicate k false).length =
        q.length + k + 1 := by
      simp only [List.length_append, List.length_cons,
        List.length_replicate]
      omega
    cases b
    · -- silence frame: emits iff k = 10
      by_cases hk10 : k = 10
      · subst hk10
        have hstep : (segStep ⟨10, true⟩ false).2 = true := by
          simp [segStep]
        rw [hstep]
        apply decide_eq_true
        have hsh : (q ++ true :: List.replicate 10 false) ++ [false] =
            q ++ true :: List.replicate 11 false := by
          rw [List.replicate_succ' 10 false]
          simp [List.append_assoc]
        rw [hsh, hn]
        refine ⟨by omega, ?_, ?_⟩
        · rw [show q.length + 10 + 1 - 11 = q.length by omega,
            List.getElem?_append_right (Nat.le_refl _), Nat.sub_self]
          rfl
        · intro j hj
          rw [show q.length + 10 + 1 - 10 + j = q.length + (1 + j) by omega,
            List.getElem?_append_right (by omega),
            show q.length + (1 + j) - q.length = 1 + j by omega]
          rw [show (1 + j) = j + 1 by omega, List.getElem?_cons_succ,
            List.getElem?_replicate, if_pos hj]
      · -- k < 10: the last speech frame is still inside the window
        have hstep : (segStep ⟨k, true⟩ false).2 = false := by
          have : ¬ k + 1 > 10 := by omega
          simp [segStep, this]
        rw [hstep]
        apply decide_eq_false
        rintro ⟨h11, h2, h3⟩
        rw [hn] at h11 h3
        have hj0 := h3 (9 - k) (by omega)
        rw [show q.length + k + 1 - 10 + (9 - k) = q.length by omega,
          List.getElem?_append_left (by
            simp only [List.length_append, List.length_cons,
              List.length_replicate]
            omega),
          List.getElem?_append_right (Nat.le_refl _), Nat.sub_self] at hj0
        simp at hj0
    · -- speech frame: the window's last slot is speech, no emission
      have hstep : (segStep ⟨k, true⟩ true).2 = false := by
        simp [segStep]
      rw [hstep]
      apply decide_eq_false
      rintro ⟨h11, h2, h3⟩
      have h10 := h3 10 (by omega)
      rw [show (q ++ true :: List.replicate k false).length - 10 + 10 =
          (q ++ true :: List.replicate k false).length by omega,
        List.getElem?_append_right (Nat.le_refl _), Nat.sub_self] at h10
      simp at h10
  · -- prefix closed by ≥ 11 silence frames, state ⟨0, false⟩: never emits
    have hn : (q ++ true :: List.replicate k false).length =
        q.length + k + 1 := by
      simp only [List.length_append, List.length_cons,
        List.length_replicate]
      omega
    have hstep : (segStep ⟨0, false⟩ b).2 = false := by
      cases b <;> simp [segStep]
    rw [hstep]
    apply decide_eq_false
    rintro ⟨h11, h2, h3⟩
    cases b
    · -- lookup at n - 11 lands inside the closing silence run
      rw [hn] at h2 h11
      rw [show q.length + k + 1 - 11 = q.length + (k - 10) by omega,
        List.getElem?_append_left (by
            simp only [List.length_append, List.length_cons,
              List.length_replicate]
            omega),
        List.getElem?_append_right (by omega),
        show q.length + (k - 10) - q.length = (k - 11) + 1 by omega,
        List.getElem?_cons_succ, List.getElem?_replicate] at h2
      have : k - 11 < k := by omega
      simp [this] at h2
    · -- the window's last slot is the new speech frame
      have h10 := h3 10 (by omega)
      rw [show (q ++ true :: List.replicate k false).length - 10 + 10 =
          (q ++ true :: List.replicate k false).length by omega,
        List.getElem?_append_right (Nat.le_refl _), Nat.sub_self] at h10
      simp at h10

/-- Main segmenter induction: continuing from any state reachable via a
prefix `p`, the emission indices produced by the segmenter are exactly the
new declarative emission positions of the extended sequence. -/
lemma seg_main :
    ∀ (s p : List Bool) (st : SegState), SegInv p st →
      (List.range (p.length + s.length)).filter
          (fun i => emissionAt (p ++ s) i) =
        (List.range p.length).filter (fun i => emissionAt p i) ++
          (segRunFromIdx st p.length s).2 := by
  intro s
  induction s with
  | nil =>
    intro p st _
    simp [segRunFromIdx]
  | cons b s' ih =>
    intro p st hinv
    have hmain := ih (p ++ [b]) (segStep st b).1 (seg_inv_step b hinv)
    rw [List.length_append, List.length_singleton] at hmain
    rw [show p ++ b :: s' = (p ++ [b]) ++ s' by simp,
      show p.length + (b :: s').length = p.length + 1 + s'.length by
        simp only [List.length_cons]; omega,
      hmain, List.range_succ, List.filter_append]
    have hcong : (List.range p.length).filter
        (fun i => emissionAt (p ++ [b]) i)
        = (List.range p.length).filter (fun i => emissionAt p i) := by
      apply List.filter_congr
      intro i hi
      exact emissionAt_append_left p [b] i (List.mem_range.mp hi)
    rw [hcong]
    have hsing : List.filter (fun i => emissionAt (p ++ [b]) i) [p.length]
        = (if (segStep st b).2 then [p.length] else []) := by
      rw [List.filter_singleton, seg_step_emission b hinv]
      cases h2 : (segStep st b).2 <;> simp [h2]
    rw [hsing]
    simp [segRunFromIdx, List.append_assoc]

/-- Claim C3 counterexample: a single speech frame forms one maximal run of
speech frames, but the segmenter — started in `Silence` — emits nothing,
because the run is never followed by the 11 consecutive silence frames that
close an utterance. -/
theorem emission_count_ne_maximal_runs_ce :
    segEmits [true] = 0 ∧ runCount [true] = 1 ∧
    segEmits [true] ≠ runCount [true] := by
  refine ⟨by decide, by decide, by decide⟩

/-- Claim C3 amended: for every finite classification sequence fed to the
segmenter starting in `Silence`, the utterance emissions happen exactly at
the positions where a speech frame is followed by exactly 11 consecutive
silence frames; hence their number equals the number of maximal speech runs
(runs separated by at most 10 silence frames merge) that are closed by at
least 11 consecutive silence frames — a trailing run not so closed is not
emitted — and each emission occurs exactly when the trailing-silence counter
exceeds 10. -/
theorem emission_positions_characterization (l : List Bool) :
    segEmitIdxs l = (List.range l.length).filter (fun i => emissionAt l i) ∧
    segEmits l =
      ((List.range l.length).filter (fun i => emissionAt l i)).length := by
  have h := seg_main l [] segInit (Or.inl ⟨by simp, rfl⟩)
  simp only [List.nil_append, List.length_nil, Nat.zero_add, List.range_zero,
    List.filter_nil, List.nil_append] at h
  exact ⟨h.symm, congrArg List.length h.symm⟩

end Whisper
